import Mathlib

/-!
Verification of the tgh terminal dashboard (Go sources) against its
natural-language specification.  The Go code is shallowly embedded:
Go strings are modelled as lists of characters (`Str`), Go `int`/`int64`
as `Int`, fallible network calls as `Option`-valued oracles, and the
Bubble Tea model update loop as a pure function on a `Model` record.
-/

namespace Tgh

/-- Go strings, modelled as lists of characters. -/
abbrev Str := List Char

/-- Helper for `splitLines`: returns the prefix of the string up to the
first newline, together with the list of the remaining lines. -/
def splitLinesAux : Str → Str × List Str
  | [] => ([], [])
  | c :: rest =>
    let p := splitLinesAux rest
    if c = '\n' then ([], p.1 :: p.2) else (c :: p.1, p.2)

/-- Embeds Go `strings.Split(content, "\n")`: the list of lines of a
string, where each newline character separates two lines.  The result is
always non-empty (splitting the empty string yields one empty line). -/
def splitLines (s : Str) : List Str :=
  (splitLinesAux s).1 :: (splitLinesAux s).2

/-- Embeds Go `strings.Join(lines, "\n")`. -/
def joinLines : List Str → Str
  | [] => []
  | [l] => l
  | l :: l2 :: ls => l ++ '\n' :: joinLines (l2 :: ls)

/-- Embeds Go `strings.IndexByte(line, ' ')`: index of the first space,
`none` for Go's -1. -/
def indexOfSpace : Str → Option Nat
  | [] => none
  | c :: rest => if c = ' ' then some 0 else (indexOfSpace rest).map (· + 1)

/-- Embeds the per-line body of `processLogLines` (github.go /
part_000): a line longer than 30 characters with dashes at offsets 4 and
7 has everything up to and including its first space removed, provided
that space occurs at an index strictly between 0 and 35. -/
def stripLine (line : Str) : Str :=
  if line.length > 30 ∧ line.get? 4 = some '-' ∧ line.get? 7 = some '-' then
    match indexOfSpace line with
    | some idx => if 0 < idx ∧ idx < 35 then line.drop (idx + 1) else line
    | none => line
  else line

/-- The exact condition under which `stripLine` modifies its input. -/
def tsMatches (line : Str) : Prop :=
  (line.length > 30 ∧ line.get? 4 = some '-' ∧ line.get? 7 = some '-') ∧
  ∃ idx, indexOfSpace line = some idx ∧ 0 < idx ∧ idx < 35

instance (line : Str) : Decidable (tsMatches line) := by
  unfold tsMatches
  cases h : indexOfSpace line with
  | none => exact isFalse fun ⟨_, _, hidx, _⟩ => by cases hidx
  | some i =>
    refine decidable_of_iff ((line.length > 30 ∧ line.get? 4 = some '-' ∧
      line.get? 7 = some '-') ∧ 0 < i ∧ i < 35) ?_
    constructor
    · rintro ⟨h1, h2⟩; exact ⟨h1, i, rfl, h2⟩
    · rintro ⟨h1, idx, hidx, h2⟩
      cases hidx; exact ⟨h1, h2⟩

/-- Embeds `processLogLines` (github.go:168, part_000:444): strips the
timestamp prefix from every line of the content. -/
def processLogLines (content : Str) : Str :=
  joinLines ((splitLines content).map stripLine)

/-- Embeds Go `strings.ToLower` (rune-wise lowering). -/
def toLowerStr (s : Str) : Str := s.map Char.toLower

/-- Embeds Go `strings.Contains(s, sub)`. -/
def containsSub (s sub : Str) : Bool := decide (sub <:+: s)

/-- Embeds the content computation of `model.applyLogFilter`
(update.go:162-180): with an empty filter the raw text is used
unchanged; otherwise only the lines whose lowercased text contains the
lowercased filter are kept and re-joined.  (The subsequent rendering and
viewport update are display-only and are not modelled.) -/
def applyLogFilter (logRaw logFilter : Str) : Str :=
  if logFilter = [] then logRaw
  else joinLines ((splitLines logRaw).filter fun line =>
    containsSub (toLowerStr line) (toLowerStr logFilter))

/-! ### Data model (github.go / part_000)

Go `int`/`int64` identifiers are modelled as `Int`; `time.Time` fields are
irrelevant to every claim and are omitted. -/

/-- Embeds `Step` (part_000:74-81). -/
structure Step where
  name : String
  status : String
  conclusion : String
  number : Int
deriving DecidableEq

/-- Embeds `Job` (part_000:62-71). -/
structure Job where
  id : Int
  name : String
  status : String
  conclusion : String
  steps : List Step
  htmlURL : String
deriving DecidableEq

/-- Embeds `WorkflowRun` (part_000:49-59). -/
structure WorkflowRun where
  id : Int
  name : String
  status : String
  conclusion : String
  headBranch : String
  event : String
  htmlURL : String
deriving DecidableEq

/-- Embeds `timelineLog` (part_000:567-570). -/
structure TimelineLog where
  id : Int
  url : String
deriving DecidableEq

/-- Embeds `timelineRecord` (part_000:572-577). -/
structure TimelineRecord where
  name : String
  type : String
  log : Option TimelineLog
deriving DecidableEq

/-- Embeds `pipelineServiceInfo` (part_000:501-506). -/
structure PipelineServiceInfo where
  serviceBase : String
  pipelineID : Int
  pipelineRunID : Int
  authToken : String
deriving DecidableEq

/-! ### Incremental per-step log fetcher (part_000:645-686) -/

/-- Embeds the name-to-log-URL map built in `FetchNewStepLogs`
(part_000:652-657): Task-type timeline records with a non-empty URL;
as in a Go map assignment, a later record overrides an earlier one with
the same name. -/
def buildNameToLogURL (records : List TimelineRecord) : String → Option String :=
  records.foldl
    (fun m r =>
      match r.log with
      | some lg =>
        if r.type = "Task" ∧ lg.url ≠ "" then
          fun n => if n = r.name then some lg.url else m n
        else m
      | none => m)
    (fun _ => none)

/-- Embeds Go `strings.TrimRight(content, "\n")`. -/
def trimTrailingNewlines (s : Str) : Str :=
  (s.reverse.dropWhile fun c => c = '\n').reverse

/-- Embeds the step loop of `FetchNewStepLogs` (part_000:660-684).
The network is an oracle: `urlOf` is the timeline map and `fetchLog`
models `fetchLogFromURL`, returning `none` for a failed fetch (the Go
code logs and skips the step in both cases).  `h` is the
`maxFetchedStepNum` argument; `sb` and `nm` accumulate the string
builder and `newMax`. -/
def fetchStepLoop (urlOf : String → Option String) (fetchLog : String → Option Str)
    (h : Int) : List Step → Str → Int → Str × Int
  | [], sb, nm => (sb, nm)
  | s :: rest, sb, nm =>
    if s.status = "completed" ∧ h < s.number then
      match urlOf s.name with
      | none => fetchStepLoop urlOf fetchLog h rest sb nm
      | some url =>
        match fetchLog url with
        | none => fetchStepLoop urlOf fetchLog h rest sb nm
        | some content =>
          fetchStepLoop urlOf fetchLog h rest
            (if sb = [] then trimTrailingNewlines content
             else sb ++ '\n' :: trimTrailingNewlines content)
            (if nm < s.number then s.number else nm)
    else fetchStepLoop urlOf fetchLog h rest sb nm

/-- Embeds `FetchNewStepLogs` (part_000:645-686).  `timeline` models the
`getBuildTimeline` call, `none` being an error (which the Go function
propagates, returning the unchanged high-water mark; the caller then
produces an error message and no step-log message, so the model's mark
is unchanged too — modelled here as `none`). -/
def FetchNewStepLogs (timeline : Option (List TimelineRecord))
    (fetchLog : String → Option Str) (steps : List Step)
    (maxFetchedStepNum : Int) : Option (Str × Int) :=
  match timeline with
  | none => none
  | some records =>
    some (fetchStepLoop (buildNameToLogURL records) fetchLog maxFetchedStepNum
      steps [] maxFetchedStepNum)

/-- The steps for which a call of `FetchNewStepLogs` reaches the fetch
attempt: completed and above the high-water mark (guard at
part_000:663). -/
def attemptedSteps (steps : List Step) (h : Int) : List Step :=
  steps.filter fun s => decide (s.status = "completed") && decide (h < s.number)

/-- The steps whose log a call of `FetchNewStepLogs` successfully
retrieves: attempted, with a resolvable timeline URL and a successful
log fetch. -/
def successfulSteps (urlOf : String → Option String)
    (fetchLog : String → Option Str) (steps : List Step) (h : Int) : List Step :=
  steps.filter fun s => decide (s.status = "completed") && decide (h < s.number)
    && ((urlOf s.name).bind fetchLog).isSome

/-! ### The Bubble Tea model and its data-message handlers (main.go /
update.go, first revision)

The `model` struct (main.go:31-102) is embedded with the fields the
data-message handlers touch.  The Go `map[int64][]Job` cache (whose
missing-key default is `nil`) is a total function `Int → List Job`; the
nil-able `map[int64]bool` snapshot set is an `Option (List Int)`.
Display-only state (viewport, spinner, rendered text, sizes) is not
modelled; the tail dispatch of data messages to the Bubbles
list/viewport components (update.go:1141-1169) does not alter any
modelled field. -/

/-- Embeds `viewState` (main.go). -/
inductive ViewState where
  | stateMenu
  | stateRuns
  | stateJobs
  | stateLogs
  | statePRs
  | stateWorkflows
  | stateDispatchForm
deriving DecidableEq

/-- The commands the embedded handlers can return (`tea.Cmd` values
relevant to the claims: fetches and timer re-arms from update.go). -/
inductive Cmd where
  | fetchRuns
  | fetchJobs (runID : Int)
  | fetchLogs (jobID : Int)
  | jobsPoll
  | runsPoll
  | logPoll
deriving DecidableEq

/-- Embeds the `model` struct (main.go:31-102), restricted to the fields
the embedded handlers read or write. -/
structure Model where
  state : ViewState
  selectedRun : WorkflowRun
  selectedJob : Job
  runsItems : List WorkflowRun
  jobsItems : List Job
  jobsSelectedIdx : Nat
  jobsPolling : Bool
  runsPolling : Bool
  jobsPollStartIDs : Option (List Int)
  lastJobsForRun : Int → List Job
  logRaw : Str
  logLoaded : Bool
  autoScroll : Bool
  pipelineInfo : Option PipelineServiceInfo
  stepLogsFetched : Int
  loading : Bool
  statusMsg : String

/-- Embeds `isRunning` (update.go:146-148). -/
def isRunning (status : String) : Bool :=
  decide (status = "in_progress") || decide (status = "queued")

/-- Embeds the new-job computation inside the `jobsLoadedMsg` handler
(update.go:1010-1022): the entries of the fetched list whose id does not
occur in the previously cached list. -/
def detectNewJobs (oldJobs msg : List Job) : List Job :=
  msg.filter fun j => ! oldJobs.any fun o => decide (o.id = j.id)

/-- Embeds the index-searching loop at update.go:1024-1030 (`for i, item
:= range items \x7b if ... \x7d`): first index whose job satisfies `p`. -/
def findJobIdx (p : Job → Bool) : List Job → Nat → Option Nat
  | [], _ => none
  | j :: rest, i => if p j then some i else findJobIdx p rest (i + 1)

/-- Embeds the `jobsLoadedMsg` handler after the rerun-wait gate
(update.go:1001-1048): store the items, auto-select the first new job
when in the Jobs view, replace the per-run cache, and, in the Logs view,
sync the displayed job and trigger the final full-log fetch on a
running-to-done transition. -/
def updateJobsLoadedMain (m : Model) (msg : List Job) : Model × List Cmd :=
  let runID := m.selectedRun.id
  let oldJobs := m.lastJobsForRun runID
  let m1 := { m with jobsItems := msg }
  let newJobs := detectNewJobs oldJobs msg
  let m2 :=
    match newJobs with
    | [] => m1
    | jn :: _ =>
      if m1.state = ViewState.stateJobs then
        match findJobIdx (fun j => decide (j.id = jn.id)) msg 0 with
        | some i =>
          { m1 with
            jobsSelectedIdx := i
            statusMsg := "✓ Jumped to re-triggered job" }
        | none => m1
      else m1
  let m3 := { m2 with
    lastJobsForRun := fun r => if r = runID then msg else m2.lastJobsForRun r }
  if m3.state = ViewState.stateLogs then
    match msg.find? (fun j => decide (j.id = m3.selectedJob.id)) with
    | some j =>
      let wasRunning := isRunning m3.selectedJob.status
      let m4 := { m3 with selectedJob := j }
      if wasRunning = true ∧ isRunning j.status = false then
        ({ m4 with pipelineInfo := none }, [Cmd.fetchLogs j.id])
      else (m4, [])
    | none => (m3, [])
  else (m3, [])

/-- Embeds the `jobsLoadedMsg` handler (update.go:984-1048), including
the rerun-wait gate at 987-999: while the poll-start id set is non-nil,
a fetch containing only snapshotted ids is dropped (only the loading
flag is cleared); the first fetch containing an unknown id clears the
set and is processed normally. -/
def updateJobsLoaded (m : Model) (msg : List Job) : Model × List Cmd :=
  match m.jobsPollStartIDs with
  | some startIDs =>
    if msg.any (fun j => ! startIDs.contains j.id) then
      updateJobsLoadedMain { m with loading := false, jobsPollStartIDs := none } msg
    else ({ m with loading := false }, [])
  | none => updateJobsLoadedMain { m with loading := false } msg

/-- Embeds the `logPollTickMsg` handler (update.go:1065-1073): in the
Logs view, a running job triggers a jobs re-fetch plus a timer re-arm,
a finished job triggers the final full-log fetch with no re-arm. -/
def updateLogPollTick (m : Model) : Model × List Cmd :=
  if m.state = ViewState.stateLogs then
    if isRunning m.selectedJob.status then
      (m, [Cmd.fetchJobs m.selectedRun.id, Cmd.logPoll])
    else (m, [Cmd.fetchLogs m.selectedJob.id])
  else (m, [])

/-- Embeds the `rerunMsg` handler (update.go:1075-1089): snapshot the
ids of the currently listed jobs, clear the visible list when in the
Jobs view, and start jobs polling if not already running. -/
def updateRerun (m : Model) (message : String) : Model × List Cmd :=
  let m1 :=
    { m with
      statusMsg := message
      jobsPollStartIDs := some (m.jobsItems.map Job.id) }
  let m2 := if m1.state = ViewState.stateJobs then { m1 with jobsItems := [] } else m1
  if m2.jobsPolling then (m2, ([] : List Cmd))
  else ({ m2 with jobsPolling := true }, [Cmd.jobsPoll])

/-- Embeds the `jobsPollTickMsg` handler (update.go:1091-1097): while
the polling flag is set, re-arm the timer, and re-fetch the job list
only when the Jobs view is current. -/
def updateJobsPollTick (m : Model) : Model × List Cmd :=
  if m.jobsPolling then
    (m, (if m.state = ViewState.stateJobs then [Cmd.fetchJobs m.selectedRun.id]
      else []) ++ [Cmd.jobsPoll])
  else (m, [])

/-- Embeds the `errMsg` handler (update.go:1109-1111): clear the loading
flag and set the status message.  (The tail delegation of the message to
the active list/viewport component leaves all modelled fields
unchanged.) -/
def updateErr (m : Model) (errText : String) : Model × List Cmd :=
  ({ m with loading := false, statusMsg := "error: " ++ errText }, [])

/-- Embeds the `stepLogsMsg` handler (update.go:1116-1132): a message
whose high-water mark does not exceed the stored one is ignored;
otherwise the mark is raised and non-empty content is appended to the
raw log (separated by a newline when the buffer is non-empty).  The
`applyLogFilter` re-render and the waiting-message viewport update are
display-only and not modelled. -/
def updateStepLogs (m : Model) (content : Str) (maxFetchedID : Int) :
    Model × List Cmd :=
  if m.stepLogsFetched < maxFetchedID then
    let m1 := { m with stepLogsFetched := maxFetchedID }
    if content ≠ [] then
      ({ m1 with
          logRaw := (if m1.logRaw ≠ [] then m1.logRaw ++ ['\n'] else m1.logRaw)
            ++ content
          logLoaded := true }, [])
    else if m1.logLoaded = false then
      ({ m1 with logLoaded := true }, [])
    else (m1, [])
  else (m, [])

/-! ### Concrete fixtures used by counterexamples and witnesses -/

/-- A log line carrying two timestamp prefixes in a row. -/
def doubleTimestampLine : Str :=
  String.toList "2024-01-01 2024-01-01T00:00:00.0000000Z tail of the log line"

/-- Fixture run. -/
def run0 : WorkflowRun := ⟨0, "ci", "completed", "success", "main", "push", ""⟩

/-- Fixture job, id 1, running. -/
def jobRunning : Job := ⟨1, "build", "in_progress", "", [], ""⟩

/-- Fixture job, id 1, finished. -/
def jobDone : Job := ⟨1, "build", "completed", "success", [], ""⟩

/-- Fixture job, id 2, freshly appeared. -/
def jobFresh : Job := ⟨2, "build-rerun", "queued", "", [], ""⟩

/-- Fixture model: Jobs view, nothing loaded, no polling. -/
def baseModel : Model where
  state := ViewState.stateJobs
  selectedRun := run0
  selectedJob := jobRunning
  runsItems := []
  jobsItems := []
  jobsSelectedIdx := 0
  jobsPolling := false
  runsPolling := false
  jobsPollStartIDs := none
  lastJobsForRun := fun _ => []
  logRaw := []
  logLoaded := false
  autoScroll := true
  pipelineInfo := none
  stepLogsFetched := 0
  loading := false
  statusMsg := ""

/-- Fixture step with no timeline record (part_000:666-669 skip path). -/
def stepNoURL : Step := ⟨"checkout", "completed", "success", 3⟩

/-- Fixture step with a resolvable timeline record. -/
def stepWithURL : Step := ⟨"build", "completed", "success", 5⟩

/-- Fixture timeline record for `stepWithURL` only. -/
def recBuild : TimelineRecord := ⟨"build", "Task", some ⟨1, "logurl"⟩⟩

/-- Fixture log-fetch oracle that always succeeds with empty content. -/
def fetchLogConst : String → Option Str := fun _ => some []

/-- Fixture model: Logs view showing `jobRunning`, no rerun-wait set. -/
def mLogs : Model := { baseModel with state := ViewState.stateLogs }

/-- Fixture model: Logs view showing `jobRunning` while the rerun-wait
snapshot set is `[1]`. -/
def mWaiting : Model :=
  { baseModel with state := ViewState.stateLogs, jobsPollStartIDs := some [1] }

/-- The snapshot reached from `m0` by handling a `rerunMsg` carrying
`rmsg` and then a sequence `msgs` of `jobsLoadedMsg` poll results, in
order (the event-loop trace used to state the rerun auto-jump claim). -/
def rerunTrace (m0 : Model) (rmsg : String) (msgs : List (List Job)) : Model :=
  msgs.foldl (fun mm jl => (updateJobsLoaded mm jl).1) (updateRerun m0 rmsg).1

/-! ### Basic lemmas about line splitting and joining -/

theorem splitLines_nil : splitLines [] = [[]] := rfl

theorem splitLines_cons_newline (rest : Str) :
    splitLines ('\n' :: rest) = [] :: splitLines rest := by
  simp [splitLines, splitLinesAux]

theorem splitLines_cons_char {c : Char} (hc : c ≠ '\n') (rest : Str) :
    splitLines (c :: rest) =
      (c :: (splitLinesAux rest).1) :: (splitLinesAux rest).2 := by
  simp [splitLines, splitLinesAux, hc]

theorem splitLines_no_newline {l : Str} (h : '\n' ∉ l) : splitLines l = [l] := by
  induction l with
  | nil => rfl
  | cons c rest ih =>
    have hc : c ≠ '\n' := fun hh => h (hh ▸ List.mem_cons_self c rest)
    have hrest : '\n' ∉ rest := fun hh => h (List.mem_cons_of_mem c hh)
    have := ih hrest
    rw [splitLines_cons_char hc]
    simp only [splitLines] at this
    obtain ⟨h1, h2⟩ := List.cons.inj this
    rw [h1, h2]

theorem splitLines_append_newline {l : Str} (t : Str) (h : '\n' ∉ l) :
    splitLines (l ++ '\n' :: t) = l :: splitLines t := by
  induction l with
  | nil => simpa using splitLines_cons_newline t
  | cons c rest ih =>
    have hc : c ≠ '\n' := fun hh => h (hh ▸ List.mem_cons_self c rest)
    have hrest : '\n' ∉ rest := fun hh => h (List.mem_cons_of_mem c hh)
    have := ih hrest
    rw [List.cons_append, splitLines_cons_char hc]
    simp only [splitLines] at this
    obtain ⟨h1, h2⟩ := List.cons.inj this
    rw [h1, h2]
    rfl

theorem splitLines_joinLines :
    ∀ (ls : List Str), ls ≠ [] → (∀ l ∈ ls, '\n' ∉ l) →
      splitLines (joinLines ls) = ls
  | [], h, _ => absurd rfl h
  | [l], _, hmem => by
    rw [joinLines]
    exact splitLines_no_newline (hmem l (List.mem_singleton_self l))
  | l :: l2 :: ls, _, hmem => by
    rw [joinLines, splitLines_append_newline _ (hmem l (List.mem_cons_self _ _))]
    rw [splitLines_joinLines (l2 :: ls) (List.cons_ne_nil _ _)
      (fun x hx => hmem x (List.mem_cons_of_mem l hx))]

theorem mem_splitLines_no_newline {s : Str} :
    ∀ l ∈ splitLines s, '\n' ∉ l := by
  induction s with
  | nil => intro l hl; rw [splitLines_nil] at hl; simp at hl; simp [hl]
  | cons c rest ih =>
    intro l hl
    by_cases hc : c = '\n'
    · subst hc
      rw [splitLines_cons_newline] at hl
      rcases List.mem_cons.mp hl with h | h
      · simp [h]
      · exact ih l h
    · rw [splitLines_cons_char hc] at hl
      rcases List.mem_cons.mp hl with h | h
      · subst h
        intro hmem
        rcases List.mem_cons.mp hmem with h | h
        · exact hc h.symm
        · exact ih (splitLinesAux rest).1 (List.mem_cons_self _ _) h
      · exact ih l (List.mem_cons_of_mem _ h)

/-! ### Lemmas about `indexOfSpace` and `stripLine` -/

theorem indexOfSpace_spec {l : Str} {idx : Nat} (h : indexOfSpace l = some idx) :
    l.get? idx = some ' ' ∧ ∀ k < idx, l.get? k ≠ some ' ' := by
  induction l generalizing idx with
  | nil => simp [indexOfSpace] at h
  | cons c rest ih =>
    by_cases hc : c = ' '
    · simp [indexOfSpace, hc] at h
      subst h
      exact ⟨by simp [hc], fun k hk => by omega⟩
    · simp [indexOfSpace, hc] at h
      obtain ⟨j, hj, hji⟩ := h
      obtain ⟨h1, h2⟩ := ih hj
      subst hji
      refine ⟨by simpa using h1, ?_⟩
      intro k hk
      cases k with
      | zero => simpa using hc
      | succ k => simpa using h2 k (by omega)

theorem stripLine_eq_self_of_not_matches {l : Str} (h : ¬ tsMatches l) :
    stripLine l = l := by
  unfold stripLine
  by_cases h1 : l.length > 30 ∧ l.get? 4 = some '-' ∧ l.get? 7 = some '-'
  · cases hidx : indexOfSpace l with
    | none => simp only [if_pos h1, hidx]
    | some idx =>
      have h2 : ¬ (0 < idx ∧ idx < 35) := fun hh => h ⟨h1, idx, hidx, hh⟩
      simp only [if_pos h1, hidx, if_neg h2]
  · exact if_neg h1

theorem stripLine_of_matches {l : Str} (h : tsMatches l) :
    ∃ idx, indexOfSpace l = some idx ∧ stripLine l = l.drop (idx + 1) := by
  obtain ⟨h1, idx, hidx, h2⟩ := h
  refine ⟨idx, hidx, ?_⟩
  unfold stripLine
  simp only [if_pos h1, hidx, if_pos h2]

theorem stripLine_eq_or_drop (l : Str) :
    stripLine l = l ∨
      ∃ idx, indexOfSpace l = some idx ∧ stripLine l = l.drop (idx + 1) := by
  by_cases h : tsMatches l
  · exact Or.inr (stripLine_of_matches h)
  · exact Or.inl (stripLine_eq_self_of_not_matches h)

theorem stripLine_suffix (l : Str) : stripLine l <:+ l := by
  rcases stripLine_eq_or_drop l with h | ⟨idx, _, h⟩
  · rw [h]
  · rw [h]; exact List.drop_suffix _ _

theorem stripLine_no_newline {l : Str} (h : '\n' ∉ l) : '\n' ∉ stripLine l :=
  fun hmem => h ((stripLine_suffix l).subset hmem)

/-! ### Claims C6, C7, C10: log filtering and timestamp stripping -/

/-- Claim C10: `processLogLines` preserves line structure — for every
input string the output has exactly the same number of newline-separated
lines, each output line is `stripLine` of the corresponding input line,
and `stripLine` returns a line either unchanged or as the suffix after
its first space; lines are never merged, dropped, or reordered. -/
theorem processLogLines_line_structure (content : Str) :
    (splitLines (processLogLines content)).length = (splitLines content).length ∧
    splitLines (processLogLines content) = (splitLines content).map stripLine ∧
    ∀ l : Str, stripLine l = l ∨
      (stripLine l <:+ l ∧ ∃ idx, l.get? idx = some ' ' ∧
        (∀ k < idx, l.get? k ≠ some ' ') ∧ stripLine l = l.drop (idx + 1)) := by
  have hsplit : splitLines (processLogLines content) =
      (splitLines content).map stripLine := by
    unfold processLogLines
    apply splitLines_joinLines
    · simp [splitLines]
    · intro l hl
      obtain ⟨l0, hl0, hll⟩ := List.mem_map.mp hl
      exact hll ▸ stripLine_no_newline (mem_splitLines_no_newline l0 hl0)
  refine ⟨by rw [hsplit]; simp, hsplit, ?_⟩
  intro l
  rcases stripLine_eq_or_drop l with h | ⟨idx, hidx, h⟩
  · exact Or.inl h
  · obtain ⟨hsp, hfirst⟩ := indexOfSpace_spec hidx
    exact Or.inr ⟨h ▸ List.drop_suffix _ _, idx, hsp, hfirst, h⟩

/-- Claim C7 counterexample: timestamp stripping is not idempotent — on
a line that carries a second timestamp right after the first one,
stripping twice removes more than stripping once, so
strip(strip(line)) ≠ strip(line). -/
theorem stripLine_not_idempotent :
    stripLine (stripLine doubleTimestampLine) ≠ stripLine doubleTimestampLine := by
  decide

/-- Claim C7 (amended): a line with no matching timestamp prefix (a line
of more than 30 characters with dashes at offsets 4 and 7 and a first
space at an index strictly between 0 and 35) is returned unchanged, and
strip(strip(line)) = strip(line) for every line whose once-stripped form
does not itself match the timestamp heuristic; full idempotence fails on
doubly-timestamped lines. -/
theorem stripLine_idempotent_amended (l : Str) :
    (¬ tsMatches l → stripLine l = l) ∧
    (¬ tsMatches (stripLine l) → stripLine (stripLine l) = stripLine l) :=
  ⟨fun h => stripLine_eq_self_of_not_matches h,
   fun h => stripLine_eq_self_of_not_matches h⟩

/-- Witness for the amended Claim C7 at a concrete line. -/
theorem stripLine_idempotent_amended_witness :
    stripLine (String.toList "no timestamp here") = String.toList "no timestamp here" ∧
    stripLine (stripLine (String.toList "no timestamp here")) =
      stripLine (String.toList "no timestamp here") :=
  ⟨(stripLine_idempotent_amended (String.toList "no timestamp here")).1 (by decide),
   (stripLine_idempotent_amended (String.toList "no timestamp here")).2 (by decide)⟩

/-- Claim C6: the Log Filter Engine — an empty query returns the raw
text unchanged; a non-empty query produces exactly the newline-joined
in-order subsequence (a sublist of the split lines) of lines whose
lowercased content contains the lowercased query, so every kept line
contains the query case-insensitively. -/
theorem applyLogFilter_spec (raw q : Str) :
    applyLogFilter raw [] = raw ∧
    (q ≠ [] →
      applyLogFilter raw q =
        joinLines ((splitLines raw).filter fun line =>
          containsSub (toLowerStr line) (toLowerStr q)) ∧
      List.Sublist ((splitLines raw).filter fun line =>
          containsSub (toLowerStr line) (toLowerStr q)) (splitLines raw) ∧
      ∀ l ∈ (splitLines raw).filter fun line =>
          containsSub (toLowerStr line) (toLowerStr q),
        toLowerStr q <:+: toLowerStr l) := by
  refine ⟨by simp [applyLogFilter], fun hq => ⟨?_, List.filter_sublist _, ?_⟩⟩
  · simp [applyLogFilter, hq]
  · intro l hl
    have := List.of_mem_filter hl
    simpa [containsSub] using this

/-- Witness for Claim C6 at a concrete log text and query. -/
theorem applyLogFilter_spec_witness :
    applyLogFilter (String.toList "ok line\nError: boom") (String.toList "error") =
      joinLines ((splitLines (String.toList "ok line\nError: boom")).filter
        fun line =>
          containsSub (toLowerStr line) (toLowerStr (String.toList "error"))) ∧
    applyLogFilter (String.toList "ok line\nError: boom") (String.toList "error") =
      String.toList "Error: boom" :=
  ⟨((applyLogFilter_spec (String.toList "ok line\nError: boom")
      (String.toList "error")).2 (by decide)).1, by decide⟩

/-! ### Claims C1, C8, C9: change detection, error frame, jobs polling -/

/-- Claim C1: the jobs classified as new by the change detector are
exactly the entries of the newly fetched list whose id is absent from
the old list; in particular the result is empty when the two lists
contain the same ids. -/
theorem detectNewJobs_spec (oldJobs msg : List Job) :
    (∀ j, j ∈ detectNewJobs oldJobs msg ↔
      (j ∈ msg ∧ j.id ∉ oldJobs.map Job.id)) ∧
    ((∀ i : Int, i ∈ msg.map Job.id ↔ i ∈ oldJobs.map Job.id) →
      detectNewJobs oldJobs msg = []) := by
  have hmem : ∀ j, j ∈ detectNewJobs oldJobs msg ↔
      (j ∈ msg ∧ j.id ∉ oldJobs.map Job.id) := by
    intro j
    unfold detectNewJobs
    rw [List.mem_filter]
    have hb : (! oldJobs.any fun o => decide (o.id = j.id)) = true ↔
        j.id ∉ oldJobs.map Job.id := by simp
    rw [hb]
  refine ⟨hmem, fun hiff => ?_⟩
  rw [List.eq_nil_iff_forall_not_mem]
  intro j hj
  obtain ⟨hjm, hid⟩ := (hmem j).mp hj
  exact hid ((hiff j.id).mp (List.mem_map.mpr ⟨j, hjm, rfl⟩))

/-- Witness for Claim C1 at concrete job lists. -/
theorem detectNewJobs_spec_witness :
    jobFresh ∈ detectNewJobs [jobDone] [jobDone, jobFresh] ∧
    detectNewJobs [jobDone] [jobDone] = [] :=
  ⟨((detectNewJobs_spec [jobDone] [jobDone, jobFresh]).1 jobFresh).mpr
      ⟨by decide, by decide⟩,
   (detectNewJobs_spec [jobDone] [jobDone]).2 (fun _ => Iff.rfl)⟩

/-- Claim C8: handling a failed-fetch error event only clears the
loading flag and sets the transient status message; the view state,
selected run, selected job, accumulated raw log text, and the loaded
run/job list items are all unchanged, and no commands are issued. -/
theorem updateErr_frame (m : Model) (e : String) :
    ((updateErr m e).1).loading = false ∧
    ((updateErr m e).1).statusMsg = "error: " ++ e ∧
    ((updateErr m e).1).state = m.state ∧
    ((updateErr m e).1).selectedRun = m.selectedRun ∧
    ((updateErr m e).1).selectedJob = m.selectedJob ∧
    ((updateErr m e).1).logRaw = m.logRaw ∧
    ((updateErr m e).1).runsItems = m.runsItems ∧
    ((updateErr m e).1).jobsItems = m.jobsItems ∧
    (updateErr m e).2 = [] :=
  ⟨rfl, rfl, rfl, rfl, rfl, rfl, rfl, rfl, rfl⟩

/-- Claim C9 counterexample: with the jobs-polling flag set but a view
other than Jobs current (reachable, e.g., after triggering a rerun from
the Runs view), a jobs-poll tick re-arms the timer but does not
re-fetch the job list, contradicting view-independence of the fetch. -/
theorem jobsPollTick_not_view_independent :
    ({ baseModel with
        state := ViewState.stateRuns, jobsPolling := true } : Model).jobsPolling
      = true ∧
    (updateJobsPollTick { baseModel with
        state := ViewState.stateRuns, jobsPolling := true }).2 = [Cmd.jobsPoll] ∧
    Cmd.fetchJobs run0.id ∉ (updateJobsPollTick { baseModel with
        state := ViewState.stateRuns, jobsPolling := true }).2 :=
  ⟨rfl, rfl, by decide⟩

/-- Claim C9 (amended): whenever the jobs-polling flag is set, every
jobs-poll tick re-arms the timer and leaves the snapshot unchanged, but
it re-fetches the job list for the selected run only when the Jobs view
is current (while the user is looking at logs, job status is advanced
by the log-poll loop instead). -/
theorem jobsPollTick_spec (m : Model) (h : m.jobsPolling = true) :
    (updateJobsPollTick m).1 = m ∧
    Cmd.jobsPoll ∈ (updateJobsPollTick m).2 ∧
    (Cmd.fetchJobs m.selectedRun.id ∈ (updateJobsPollTick m).2 ↔
      m.state = ViewState.stateJobs) := by
  by_cases hs : m.state = ViewState.stateJobs <;>
    simp [updateJobsPollTick, h, hs]

/-- Witness for the amended Claim C9 at a concrete snapshot. -/
theorem jobsPollTick_spec_witness :
    (updateJobsPollTick { baseModel with jobsPolling := true }).1 =
      { baseModel with jobsPolling := true } ∧
    Cmd.jobsPoll ∈ (updateJobsPollTick { baseModel with jobsPolling := true }).2 ∧
    (Cmd.fetchJobs ({ baseModel with jobsPolling := true } : Model).selectedRun.id ∈
        (updateJobsPollTick { baseModel with jobsPolling := true }).2 ↔
      ({ baseModel with jobsPolling := true } : Model).state = ViewState.stateJobs) :=
  jobsPollTick_spec { baseModel with jobsPolling := true } rfl

/-! ### Claim C3: final full-log fetch on the running-to-done transition -/

/-- Claim C3 counterexample: in the Logs view, while the rerun-waiting
snapshot set is active and the poll result contains only snapshotted
ids, the handler drops the result before the displayed-job sync, so a
poll showing the displayed job transitioning from running to done
issues no full-log fetch at all. -/
theorem logsTransition_waiting_counterexample :
    mWaiting.state = ViewState.stateLogs ∧
    isRunning mWaiting.selectedJob.status = true ∧
    List.find? (fun j0 => decide (j0.id = mWaiting.selectedJob.id)) [jobDone] =
      some jobDone ∧
    isRunning jobDone.status = false ∧
    (updateJobsLoaded mWaiting [jobDone]).2 = [] := by
  decide

/-- Claim C3 (amended): while the Logs view is open and no rerun-waiting
snapshot is active, a job-list poll result in which the displayed job
has transitioned from running (in_progress or queued) to not running
issues exactly one full-log fetch for that job, replaces the displayed
job, clears the pipeline info, and the incremental log polling then
stops (a subsequent log-poll tick re-arms no timer). -/
theorem logsTransition_final_fetch (m : Model) (msg : List Job) (j : Job)
    (hstate : m.state = ViewState.stateLogs)
    (hwait : m.jobsPollStartIDs = none)
    (hfind : msg.find? (fun j0 => decide (j0.id = m.selectedJob.id)) = some j)
    (hrun : isRunning m.selectedJob.status = true)
    (hdone : isRunning j.status = false) :
    (updateJobsLoaded m msg).2 = [Cmd.fetchLogs j.id] ∧
    ((updateJobsLoaded m msg).1).selectedJob = j ∧
    ((updateJobsLoaded m msg).1).pipelineInfo = none ∧
    Cmd.logPoll ∉ (updateLogPollTick (updateJobsLoaded m msg).1).2 := by
  have hmain : updateJobsLoaded m msg =
      updateJobsLoadedMain { m with loading := false } msg := by
    unfold updateJobsLoaded
    rw [hwait]
  rw [hmain]
  unfold updateJobsLoadedMain
  dsimp only
  rw [hstate]
  cases hnj : detectNewJobs (m.lastJobsForRun m.selectedRun.id) msg with
  | nil => simp [hfind, hrun, hdone, updateLogPollTick]
  | cons jn rest => simp [hfind, hrun, hdone, updateLogPollTick]

/-- Witness for the amended Claim C3 at a concrete snapshot: the
displayed running job (id 1) appears as completed in the poll result. -/
theorem logsTransition_final_fetch_witness :
    (updateJobsLoaded mLogs [jobDone]).2 = [Cmd.fetchLogs jobDone.id] ∧
    ((updateJobsLoaded mLogs [jobDone]).1).selectedJob = jobDone ∧
    ((updateJobsLoaded mLogs [jobDone]).1).pipelineInfo = none ∧
    Cmd.logPoll ∉ (updateLogPollTick (updateJobsLoaded mLogs [jobDone]).1).2 :=
  logsTransition_final_fetch mLogs [jobDone] jobDone rfl rfl (by decide)
    (by decide) (by decide)

/-! ### Claims C4, C5: the step-log high-water mark -/

theorem fetchStepLoop_snd_ge (urlOf : String → Option String)
    (fetchLog : String → Option Str) (h : Int) (steps : List Step) :
    ∀ (sb : Str) (nm : Int), nm ≤ (fetchStepLoop urlOf fetchLog h steps sb nm).2 := by
  induction steps with
  | nil => intro sb nm; exact le_refl _
  | cons s rest ih =>
    intro sb nm
    unfold fetchStepLoop
    by_cases hg : s.status = "completed" ∧ h < s.number
    · rw [if_pos hg]
      split
      · exact ih sb nm
      · split
        · exact ih sb nm
        · refine le_trans ?_ (ih _ _)
          by_cases hlt : nm < s.number
          · rw [if_pos hlt]; exact le_of_lt hlt
          · rw [if_neg hlt]
    · rw [if_neg hg]; exact ih sb nm

theorem mem_successfulSteps {urlOf : String → Option String}
    {fetchLog : String → Option Str} {steps : List Step} {h : Int} {s : Step} :
    s ∈ successfulSteps urlOf fetchLog steps h ↔
      s ∈ steps ∧ s.status = "completed" ∧ h < s.number ∧
        ((urlOf s.name).bind fetchLog).isSome = true := by
  simp [successfulSteps, List.mem_filter, and_assoc]

theorem fetchStepLoop_snd_le (urlOf : String → Option String)
    (fetchLog : String → Option Str) (h B : Int) :
    ∀ (steps : List Step) (sb : Str) (nm : Int),
      (∀ s ∈ successfulSteps urlOf fetchLog steps h, s.number ≤ B) →
      nm ≤ B → (fetchStepLoop urlOf fetchLog h steps sb nm).2 ≤ B := by
  intro steps
  induction steps with
  | nil => intro sb nm _ hnm; exact hnm
  | cons s rest ih =>
    intro sb nm hB hnm
    have hBrest : ∀ s2 ∈ successfulSteps urlOf fetchLog rest h, s2.number ≤ B := by
      intro s2 hs2
      apply hB
      rw [mem_successfulSteps] at hs2 ⊢
      exact ⟨List.mem_cons_of_mem _ hs2.1, hs2.2⟩
    unfold fetchStepLoop
    by_cases hg : s.status = "completed" ∧ h < s.number
    · rw [if_pos hg]
      split
      · exact ih sb nm hBrest hnm
      · next url hu =>
        split
        · exact ih sb nm hBrest hnm
        · next content hf =>
          apply ih _ _ hBrest
          by_cases hlt : nm < s.number
          · rw [if_pos hlt]
            apply hB
            rw [mem_successfulSteps]
            exact ⟨List.mem_cons_self _ _, hg.1, hg.2, by rw [hu]; simp [hf]⟩
          · rw [if_neg hlt]; exact hnm
    · rw [if_neg hg]; exact ih sb nm hBrest hnm

theorem fetchStepLoop_mem_le (urlOf : String → Option String)
    (fetchLog : String → Option Str) (h : Int) :
    ∀ (steps : List Step) (sb : Str) (nm : Int),
      ∀ s ∈ successfulSteps urlOf fetchLog steps h,
        s.number ≤ (fetchStepLoop urlOf fetchLog h steps sb nm).2 := by
  intro steps
  induction steps with
  | nil => intro sb nm s hs; rw [mem_successfulSteps] at hs; cases hs.1
  | cons x rest ih =>
    intro sb nm s hs
    rw [mem_successfulSteps] at hs
    obtain ⟨hmem, hst, hgt, hsome⟩ := hs
    unfold fetchStepLoop
    rcases List.mem_cons.mp hmem with heq | hmem2
    · subst heq
      rw [if_pos ⟨hst, hgt⟩]
      split
      · next hu => rw [hu] at hsome; simp at hsome
      · next url hu =>
        split
        · next hf => rw [hu] at hsome; simp [hf] at hsome
        · next content hf =>
          refine le_trans ?_ (fetchStepLoop_snd_ge urlOf fetchLog h rest _ _)
          by_cases hlt : nm < s.number
          · rw [if_pos hlt]
          · rw [if_neg hlt]; omega
    · have hsrest : s ∈ successfulSteps urlOf fetchLog rest h := by
        rw [mem_successfulSteps]; exact ⟨hmem2, hst, hgt, hsome⟩
      by_cases hg : x.status = "completed" ∧ h < x.number
      · rw [if_pos hg]
        split
        · exact ih sb nm s hsrest
        · split
          · exact ih sb nm s hsrest
          · exact ih _ _ s hsrest
      · rw [if_neg hg]; exact ih sb nm s hsrest

/-- Claim C4: across a sequence of incremental per-step fetches the
high-water mark is monotonically non-decreasing (both in a single
`FetchNewStepLogs` call and in the model's `stepLogsMsg` handler), every
step whose log is fetched lies strictly above the call's input mark and
at most at its output mark, and any later call whose input mark is at
least this call's output mark fetches only strictly larger step numbers
— so no step at or below the current mark is ever fetched again and
each step's log is successfully fetched at most once. -/
theorem fetchNewStepLogs_hwm (records : List TimelineRecord)
    (fetchLog : String → Option Str) (steps : List Step) (h : Int)
    (out : Str × Int)
    (hout : FetchNewStepLogs (some records) fetchLog steps h = some out) :
    h ≤ out.2 ∧
    (∀ s ∈ attemptedSteps steps h, h < s.number) ∧
    (∀ s ∈ successfulSteps (buildNameToLogURL records) fetchLog steps h,
      h < s.number ∧ s.number ≤ out.2) ∧
    (∀ h2 : Int, out.2 ≤ h2 →
      ∀ (urlOf2 : String → Option String) (fetchLog2 : String → Option Str)
        (steps2 : List Step),
        ∀ s2 ∈ successfulSteps urlOf2 fetchLog2 steps2 h2,
          ∀ s1 ∈ successfulSteps (buildNameToLogURL records) fetchLog steps h,
            s1.number < s2.number) ∧
    (∀ (m : Model) (content : Str) (mid : Int),
      m.stepLogsFetched ≤ ((updateStepLogs m content mid).1).stepLogsFetched ∧
      mid ≤ ((updateStepLogs m content mid).1).stepLogsFetched) := by
  have hW : out = fetchStepLoop (buildNameToLogURL records) fetchLog h steps [] h := by
    unfold FetchNewStepLogs at hout
    exact (Option.some.inj hout).symm
  have hge : h ≤ out.2 := by
    rw [hW]; exact fetchStepLoop_snd_ge _ _ _ _ _ _
  have hsucc : ∀ s ∈ successfulSteps (buildNameToLogURL records) fetchLog steps h,
      h < s.number ∧ s.number ≤ out.2 := by
    intro s hsf
    refine ⟨(mem_successfulSteps.mp hsf).2.2.1, ?_⟩
    rw [hW]
    exact fetchStepLoop_mem_le _ _ _ _ _ _ s hsf
  refine ⟨hge, ?_, hsucc, ?_, ?_⟩
  · intro s hs
    simp only [attemptedSteps, List.mem_filter, Bool.and_eq_true,
      decide_eq_true_eq] at hs
    exact hs.2.2
  · intro h2 hh2 urlOf2 fetchLog2 steps2 s2 hs2 s1 hs1
    have hlt2 := (mem_successfulSteps.mp hs2).2.2.1
    have hle1 := (hsucc s1 hs1).2
    omega
  · intro m content mid
    by_cases hc : m.stepLogsFetched < mid
    · have hmark : ((updateStepLogs m content mid).1).stepLogsFetched = mid := by
        unfold updateStepLogs
        rw [if_pos hc]
        dsimp only
        split
        · rfl
        · split
          · rfl
          · rfl
      rw [hmark]
      exact ⟨by omega, le_refl _⟩
    · have hmark : ((updateStepLogs m content mid).1).stepLogsFetched =
          m.stepLogsFetched := by
        unfold updateStepLogs
        rw [if_neg hc]
      rw [hmark]
      exact ⟨le_refl _, by omega⟩

/-- Witness for Claim C4 at a concrete timeline and step list. -/
theorem fetchNewStepLogs_hwm_witness :
    (0 : Int) ≤ ((([] : Str), (5 : Int)) : Str × Int).2 ∧
    (∀ s ∈ attemptedSteps [stepNoURL, stepWithURL] 0, (0 : Int) < s.number) :=
  ⟨(fetchNewStepLogs_hwm [recBuild] fetchLogConst [stepNoURL, stepWithURL] 0
      (([] : Str), (5 : Int)) (by decide)).1,
   (fetchNewStepLogs_hwm [recBuild] fetchLogConst [stepNoURL, stepWithURL] 0
      (([] : Str), (5 : Int)) (by decide)).2.1⟩

/-- Claim C5 counterexample: a completed step (number 3) above the
high-water mark (0) with no resolvable timeline URL is skipped, but a
later step (number 5) fetched in the same call raises the returned mark
to 5, so the subsequent call — whose attempts are exactly the completed
steps above the new mark — never attempts step 3 again. -/
theorem stepSkipRetry_counterexample :
    stepNoURL.status = "completed" ∧ (0 : Int) < stepNoURL.number ∧
    buildNameToLogURL [recBuild] stepNoURL.name = none ∧
    FetchNewStepLogs (some [recBuild]) fetchLogConst [stepNoURL, stepWithURL] 0 =
      some (([] : Str), (5 : Int)) ∧
    stepNoURL ∉ attemptedSteps [stepNoURL, stepWithURL] 5 := by
  decide

/-- Claim C5 (amended): a completed step above the high-water mark with
no resolvable log URL (or whose log fetch fails) is skipped without
error in the current call; it is retried on the next poll provided
every step successfully fetched in the current call has a smaller
number — the returned mark then stays below the skipped step, so a
subsequent call attempts it again.  (If a higher-numbered step succeeds
in the same call, the mark passes the skipped step and it is not
retried; see the counterexample.) -/
theorem stepSkipRetry (records : List TimelineRecord)
    (fetchLog : String → Option Str) (steps : List Step) (h : Int) (s : Step)
    (hmem : s ∈ steps) (hst : s.status = "completed") (hgt : h < s.number)
    (hfail : (buildNameToLogURL records s.name).bind fetchLog = none) :
    ∃ out, FetchNewStepLogs (some records) fetchLog steps h = some out ∧
      s ∉ successfulSteps (buildNameToLogURL records) fetchLog steps h ∧
      ((∀ t ∈ successfulSteps (buildNameToLogURL records) fetchLog steps h,
          t.number < s.number) →
        out.2 < s.number ∧ s ∈ attemptedSteps steps out.2) := by
  refine ⟨fetchStepLoop (buildNameToLogURL records) fetchLog h steps [] h,
    rfl, ?_, ?_⟩
  · intro hsf
    have hx := (mem_successfulSteps.mp hsf).2.2.2
    rw [hfail] at hx
    simp at hx
  · intro hall
    have hle : (fetchStepLoop (buildNameToLogURL records) fetchLog h steps [] h).2
        ≤ s.number - 1 := by
      apply fetchStepLoop_snd_le
      · intro t ht
        have := hall t ht
        omega
      · omega
    refine ⟨by omega, ?_⟩
    simp only [attemptedSteps, List.mem_filter, Bool.and_eq_true, decide_eq_true_eq]
    exact ⟨hmem, hst, by omega⟩

/-- Witness for the amended Claim C5 at a concrete input: with an empty
timeline no fetch succeeds, the mark stays at 0, and the skipped step
remains attempted on the next call. -/
theorem stepSkipRetry_witness :
    stepNoURL ∉ successfulSteps (buildNameToLogURL []) fetchLogConst [stepNoURL] 0 ∧
    stepNoURL ∈ attemptedSteps [stepNoURL] 0 := by
  obtain ⟨out, h1, h2, h3⟩ := stepSkipRetry [] fetchLogConst [stepNoURL] 0
    stepNoURL (by decide) (by decide) (by decide) (by decide)
  have hout : out = (([] : Str), (0 : Int)) := by
    have hE : FetchNewStepLogs (some ([] : List TimelineRecord)) fetchLogConst
        [stepNoURL] 0 = some (([] : Str), (0 : Int)) := by decide
    rw [hE] at h1
    exact (Option.some.inj h1).symm
  have h4 := h3 (by decide)
  rw [hout] at h4
  exact ⟨h2, h4.2⟩

/-! ### Claim C2: rerun auto-jump -/

theorem notAny_eq_decide (oldJobs : List Job) (j : Job) :
    (! oldJobs.any fun o => decide (o.id = j.id)) =
      decide (j.id ∉ oldJobs.map Job.id) := by
  rw [Bool.eq_iff_iff]
  simp

theorem updateRerun_stateJobs (m0 : Model) (rmsg : String)
    (h0 : m0.state = ViewState.stateJobs) :
    ((updateRerun m0 rmsg).1).jobsItems = [] ∧
    ((updateRerun m0 rmsg).1).jobsPollStartIDs = some (m0.jobsItems.map Job.id) ∧
    ((updateRerun m0 rmsg).1).state = ViewState.stateJobs ∧
    ((updateRerun m0 rmsg).1).lastJobsForRun = m0.lastJobsForRun ∧
    ((updateRerun m0 rmsg).1).selectedRun = m0.selectedRun ∧
    ((updateRerun m0 rmsg).1).statusMsg = rmsg := by
  unfold updateRerun
  dsimp only
  rw [h0]
  by_cases hp : m0.jobsPolling
  · simp [hp]
  · simp [hp]

theorem findJobIdx_spec (p : Job → Bool) :
    ∀ (l : List Job) (k : Nat), (∃ j ∈ l, p j = true) →
      ∃ i, findJobIdx p l k = some i ∧ k ≤ i ∧
        ∃ a, l.get? (i - k) = some a ∧ p a = true := by
  intro l
  induction l with
  | nil => rintro k ⟨j, hj, _⟩; cases hj
  | cons x rest ih =>
    intro k hex
    by_cases hp : p x
    · exact ⟨k, by simp [findJobIdx, hp], le_refl k, x, by simp, hp⟩
    · obtain ⟨j, hj, hpj⟩ := hex
      rcases List.mem_cons.mp hj with hq | hq
      · subst hq; exact absurd hpj hp
      · obtain ⟨i, hfind, hki, a, hget, hpa⟩ := ih (k + 1) ⟨j, hq, hpj⟩
        refine ⟨i, ?_, by omega, a, ?_, hpa⟩
        · simp [findJobIdx, hp, hfind]
        · have hik : i - k = (i - (k + 1)) + 1 := by omega
          rw [hik]
          simpa using hget

theorem waiting_polls_drop (S : List Int) :
    ∀ (msgs : List (List Job)) (m : Model),
      m.jobsPollStartIDs = some S →
      (∀ jl ∈ msgs, ∀ j ∈ jl, j.id ∈ S) →
      (msgs.foldl (fun mm jl => (updateJobsLoaded mm jl).1) m).jobsItems = m.jobsItems ∧
      (msgs.foldl (fun mm jl => (updateJobsLoaded mm jl).1) m).jobsPollStartIDs = some S ∧
      (msgs.foldl (fun mm jl => (updateJobsLoaded mm jl).1) m).state = m.state ∧
      (msgs.foldl (fun mm jl => (updateJobsLoaded mm jl).1) m).lastJobsForRun =
        m.lastJobsForRun ∧
      (msgs.foldl (fun mm jl => (updateJobsLoaded mm jl).1) m).selectedRun =
        m.selectedRun ∧
      (msgs.foldl (fun mm jl => (updateJobsLoaded mm jl).1) m).statusMsg =
        m.statusMsg := by
  intro msgs
  induction msgs with
  | nil => intro m hS _; exact ⟨rfl, hS, rfl, rfl, rfl, rfl⟩
  | cons jl rest ih =>
    intro m hS hsub
    have hany : (jl.any fun j => ! S.contains j.id) = false := by
      rw [List.any_eq_false]
      intro j hj
      have hjS := hsub jl (List.mem_cons_self _ _) j hj
      simp [hjS]
    have hstep : updateJobsLoaded m jl = ({ m with loading := false }, []) := by
      unfold updateJobsLoaded
      rw [hS]
      dsimp only
      rw [hany]
      simp
    rw [List.foldl_cons, hstep]
    exact ih { m with loading := false } hS
      (fun jl2 h2 => hsub jl2 (List.mem_cons_of_mem _ h2))

theorem updateJobsLoadedMain_select (m : Model) (msg : List Job) (S : List Int)
    (hstate : m.state = ViewState.stateJobs)
    (hids : ∀ i : Int, i ∈ (m.lastJobsForRun m.selectedRun.id).map Job.id ↔ i ∈ S)
    (hnew : ∃ j ∈ msg, j.id ∉ S) :
    ((updateJobsLoadedMain m msg).1).jobsItems = msg ∧
    ((updateJobsLoadedMain m msg).1).statusMsg = "✓ Jumped to re-triggered job" ∧
    ((updateJobsLoadedMain m msg).1).jobsPollStartIDs = m.jobsPollStartIDs ∧
    ∃ jn, (msg.filter fun j => decide (j.id ∉ S)).head? = some jn ∧
      ∃ jsel, msg.get? ((updateJobsLoadedMain m msg).1).jobsSelectedIdx = some jsel ∧
        jsel.id = jn.id := by
  have hfilter : detectNewJobs (m.lastJobsForRun m.selectedRun.id) msg =
      msg.filter fun j => decide (j.id ∉ S) := by
    unfold detectNewJobs
    apply List.filter_congr
    intro j _
    rw [notAny_eq_decide]
    exact decide_eq_decide.mpr (not_congr (hids j.id))
  obtain ⟨jw, hjw, hjwS⟩ := hnew
  have hjwf : jw ∈ msg.filter fun j => decide (j.id ∉ S) :=
    List.mem_filter.mpr ⟨hjw, by simp [hjwS]⟩
  have hne : (msg.filter fun j => decide (j.id ∉ S)) ≠ [] :=
    List.ne_nil_of_mem hjwf
  obtain ⟨jn, rest2, hcons⟩ := List.exists_cons_of_ne_nil hne
  have hjnf : jn ∈ msg.filter fun j => decide (j.id ∉ S) := by
    rw [hcons]; exact List.mem_cons_self _ _
  have hjn_msg : jn ∈ msg := List.mem_of_mem_filter hjnf
  obtain ⟨i, hfind, _, a, hget, hpa⟩ :=
    findJobIdx_spec (fun j => decide (j.id = jn.id)) msg 0 ⟨jn, hjn_msg, by simp⟩
  unfold updateJobsLoadedMain
  dsimp only
  rw [hstate, hfilter, hcons]
  dsimp only
  rw [hfind]
  simp only [if_pos rfl, reduceCtorEq, if_false]
  refine ⟨rfl, rfl, rfl, jn, rfl, a, ?_, of_decide_eq_true hpa⟩
  simpa using hget

/-- Claim C2: after a rerun is triggered from the Jobs view (with the
per-run cache agreeing by id with the listed jobs), the snapshot set S
of listed job ids is captured and the visible jobs list is cleared;
every subsequent poll result whose ids are all in S leaves the list
empty, the snapshot set, cache and status message unchanged; the first
poll result containing an id outside S ends the waiting mode (the set
becomes nil), publishes the fetched list, selects a job carrying the id
of the first newly-appeared entry, and shows the confirmation
message. -/
theorem rerun_auto_jump (m0 : Model) (rmsg : String) (msgs : List (List Job))
    (msgNew : List Job)
    (h0 : m0.state = ViewState.stateJobs)
    (hcache : ∀ i : Int, i ∈ (m0.lastJobsForRun m0.selectedRun.id).map Job.id ↔
      i ∈ m0.jobsItems.map Job.id)
    (hsub : ∀ jl ∈ msgs, ∀ j ∈ jl, j.id ∈ m0.jobsItems.map Job.id)
    (hnew : ∃ j ∈ msgNew, j.id ∉ m0.jobsItems.map Job.id) :
    ((updateRerun m0 rmsg).1).jobsItems = [] ∧
    (rerunTrace m0 rmsg msgs).jobsItems = [] ∧
    (rerunTrace m0 rmsg msgs).jobsPollStartIDs = some (m0.jobsItems.map Job.id) ∧
    (rerunTrace m0 rmsg msgs).statusMsg = rmsg ∧
    ((updateJobsLoaded (rerunTrace m0 rmsg msgs) msgNew).1).jobsPollStartIDs =
      none ∧
    ((updateJobsLoaded (rerunTrace m0 rmsg msgs) msgNew).1).jobsItems = msgNew ∧
    ((updateJobsLoaded (rerunTrace m0 rmsg msgs) msgNew).1).statusMsg =
      "✓ Jumped to re-triggered job" ∧
    ∃ jn, (msgNew.filter fun j =>
        decide (j.id ∉ m0.jobsItems.map Job.id)).head? = some jn ∧
      ∃ jsel, msgNew.get? ((updateJobsLoaded (rerunTrace m0 rmsg msgs)
          msgNew).1).jobsSelectedIdx = some jsel ∧
        jsel.id = jn.id := by
  obtain ⟨hr1, hr2, hr3, hr4, hr5, hr6⟩ := updateRerun_stateJobs m0 rmsg h0
  obtain ⟨hf1, hf2, hf3, hf4, hf5, hf6⟩ :=
    waiting_polls_drop (m0.jobsItems.map Job.id) msgs (updateRerun m0 rmsg).1
      hr2 hsub
  simp only [rerunTrace]
  have hany : (msgNew.any fun j =>
      ! (m0.jobsItems.map Job.id).contains j.id) = true := by
    obtain ⟨j, hj, hjS⟩ := hnew
    rw [List.any_eq_true]
    exact ⟨j, hj, by simp [hjS]⟩
  have hstepAll : ∀ m2 : Model,
      m2.jobsPollStartIDs = some (m0.jobsItems.map Job.id) →
      updateJobsLoaded m2 msgNew =
        updateJobsLoadedMain
          { m2 with loading := false, jobsPollStartIDs := none } msgNew := by
    intro m2 h2
    unfold updateJobsLoaded
    rw [h2]
    dsimp only
    rw [hany]
    simp
  have hstepEq := hstepAll
    (msgs.foldl (fun mm jl => (updateJobsLoaded mm jl).1) (updateRerun m0 rmsg).1)
    hf2
  have hmstate : ({ msgs.foldl (fun mm jl => (updateJobsLoaded mm jl).1)
      (updateRerun m0 rmsg).1 with
      loading := false
      jobsPollStartIDs := none } : Model).state = ViewState.stateJobs :=
    hf3.trans hr3
  have hmids : ∀ i : Int, i ∈ (({ msgs.foldl (fun mm jl => (updateJobsLoaded mm jl).1)
      (updateRerun m0 rmsg).1 with
      loading := false
      jobsPollStartIDs := none } : Model).lastJobsForRun
        (({ msgs.foldl (fun mm jl => (updateJobsLoaded mm jl).1)
          (updateRerun m0 rmsg).1 with
          loading := false
          jobsPollStartIDs := none } : Model).selectedRun.id)).map Job.id ↔
      i ∈ m0.jobsItems.map Job.id := by
    intro i
    have e1 : (msgs.foldl (fun mm jl => (updateJobsLoaded mm jl).1)
        (updateRerun m0 rmsg).1).lastJobsForRun = m0.lastJobsForRun :=
      hf4.trans hr4
    have e2 : (msgs.foldl (fun mm jl => (updateJobsLoaded mm jl).1)
        (updateRerun m0 rmsg).1).selectedRun = m0.selectedRun :=
      hf5.trans hr5
    show i ∈ ((msgs.foldl (fun mm jl => (updateJobsLoaded mm jl).1)
        (updateRerun m0 rmsg).1).lastJobsForRun
        ((msgs.foldl (fun mm jl => (updateJobsLoaded mm jl).1)
          (updateRerun m0 rmsg).1).selectedRun.id)).map Job.id ↔
      i ∈ m0.jobsItems.map Job.id
    rw [e1, e2]
    exact hcache i
  obtain ⟨hs1, hs2, hs3, jn, hjn, jsel, hjsel, hid⟩ :=
    updateJobsLoadedMain_select _ msgNew (m0.jobsItems.map Job.id)
      hmstate hmids hnew
  rw [hstepEq]
  exact ⟨hr1, hf1.trans hr1, hf2, hf6.trans hr6, hs3, hs1, hs2,
    jn, hjn, jsel, hjsel, hid⟩

/-- Witness for Claim C2 at a concrete trace: a rerun from the Jobs
view followed directly by a poll revealing the fresh job (id 2). -/
theorem rerun_auto_jump_witness :
    ((updateRerun baseModel "Re-run triggered for failed jobs!").1).jobsItems
      = [] ∧
    ((updateJobsLoaded (rerunTrace baseModel "Re-run triggered for failed jobs!"
        []) [jobFresh]).1).jobsItems = [jobFresh] ∧
    ((updateJobsLoaded (rerunTrace baseModel "Re-run triggered for failed jobs!"
        []) [jobFresh]).1).statusMsg = "✓ Jumped to re-triggered job" := by
  have h := rerun_auto_jump baseModel "Re-run triggered for failed jobs!" []
    [jobFresh] rfl (fun _ => Iff.rfl) (by simp) (by decide)
  exact ⟨h.1, h.2.2.2.2.2.1, h.2.2.2.2.2.2.1⟩
